import Mathlib

/-!
Shallow embedding of `generate-pdf-docs.py`, a batch documentation
aggregator: it discovers markdown files under a root directory, converts
each file to an HTML fragment, assembles one composite HTML document with
a table of contents, and renders it to a PDF via an external engine.

Conventions of the embedding:
* Python strings are Lean `String`s; character-level operations work on
  `String.data` (`List Char`).  The regex classes `\w` and `\s` are
  modelled on the ASCII range (the paths and inputs of interest).
* The filesystem is a finite tree `FSTree`; per-file reads are a function
  `read : List String → Except String String` (path components to content,
  or the message of the raised exception — covering open/decode failures).
* `markdown2.markdown` with its fixed extras list and the WeasyPrint
  renderer are external black boxes, passed as function parameters
  `convert : String → String` and `render : String → Except String Unit`
  (the CSS stylesheet is a fixed constant attached unconditionally, so it
  is not a parameter).
* Console output is modelled as a list of `Event`s.
-/

namespace PdfDocs

/-- Models membership in the Python regex class `\w` (word character:
letter, digit or underscore; ASCII fragment). -/
def pyIsWordChar (c : Char) : Bool :=
  c.isAlpha || c.isDigit || c = '_'

/-- Models membership in the Python regex class `\s` / `str.strip`
whitespace (ASCII fragment: space, tab, newline, carriage return,
vertical tab, form feed). -/
def pyIsSpaceChar (c : Char) : Bool :=
  c = ' ' || c = '\t' || c = '\n' || c = '\r' || c = '\x0b' || c = '\x0c'

/-- Models Python `re.sub(r'[^\w\s-]', '', text)`: delete every character
that is not a word character, whitespace, or a hyphen. -/
def reSubKeep (l : List Char) : List Char :=
  l.filter (fun c => pyIsWordChar c || pyIsSpaceChar c || c = '-')

/-- Models Python `str.strip()`: remove leading and trailing whitespace. -/
def pyStrip (l : List Char) : List Char :=
  ((l.dropWhile pyIsSpaceChar).reverse.dropWhile pyIsSpaceChar).reverse

/-- Models Python `str.replace(' ', '-')`: replace each space character
(U+0020 only) by a hyphen. -/
def pyReplaceSpace (l : List Char) : List Char :=
  l.map (fun c => if c = ' ' then '-' else c)

/-- Models Python `str.lower()` (ASCII fragment, via `Char.toLower`). -/
def pyLower (l : List Char) : List Char :=
  l.map Char.toLower

/-- Embedding of `sanitize_anchor` (generate-pdf-docs.py line 11):
`re.sub(r'[^\w\s-]', '', text).strip().replace(' ', '-').lower()`. -/
def sanitize_anchor (s : String) : String :=
  String.mk (pyLower (pyReplaceSpace (pyStrip (reSubKeep s.data))))

/-- Fuel-driven recursion computing the decimal digits of `n`, most
significant first; `fuel ≥ n` guarantees the fuel never runs out. -/
def decCharsAux : Nat → Nat → List Char
  | 0, n => [Nat.digitChar n]
  | fuel + 1, n =>
    if n < 10 then [Nat.digitChar n]
    else decCharsAux fuel (n / 10) ++ [Nat.digitChar (n % 10)]

/-- Decimal digit characters of `n`, most significant first; models the
digit sequence of Python `str(i)` for a nonnegative integer. -/
def decChars (n : Nat) : List Char :=
  decCharsAux n n

/-- Models Python `str(i)` on a nonnegative integer. -/
def pyNatStr (n : Nat) : String :=
  String.mk (decChars n)

/-- Embedding of the anchor construction (line 193):
`f"section-{i}-{sanitize_anchor(str(relative_path))}"`. -/
def anchorOf (i : Nat) (rel : String) : String :=
  "section-" ++ pyNatStr i ++ "-" ++ sanitize_anchor rel

/-! ### Filesystem model and discovery -/

/-- A finite filesystem tree: regular files and directories with named
children.  Symlinks and special files are out of scope. -/
inductive FSTree where
  | file (name : String)
  | dir (name : String) (children : List FSTree)

mutual

/-- All entries of a node, as (path components relative to its parent,
is-regular-file) pairs; the node itself is included.  Models the
enumeration underlying `Path.rglob` (enumeration order is the tree
order here; the program sorts afterwards, see `sortByFullPath`). -/
def FSTree.selfEntries : FSTree → List (List String × Bool)
  | .file n => [([n], true)]
  | .dir n cs =>
    ([n], false) :: (FSTree.listEntries cs).map (fun pb => (n :: pb.1, pb.2))

/-- Entries of a list of sibling subtrees, concatenated in order. -/
def FSTree.listEntries : List FSTree → List (List String × Bool)
  | [] => []
  | t :: ts => FSTree.selfEntries t ++ FSTree.listEntries ts

end

/-- Entries strictly below the root (what `repo_path.rglob` can return:
the root itself is never a match).  A root that is a regular file has no
entries below it. -/
def rootEntries : FSTree → List (List String × Bool)
  | .file _ => []
  | .dir _ cs => FSTree.listEntries cs

/-- Final path component: the file name `fnmatch` is applied to. -/
def nameOf (p : List String) : String :=
  p.getLastD ""

/-- Models `fnmatch`-style glob matching for patterns made of literal
characters and `*` (the only pattern the program uses is `*.md`):
a literal must match the next character, and `*` matches any (possibly
empty) sequence, tried here as every suffix of the remaining input. -/
def globMatch : List Char → List Char → Bool
  | [], cs => cs.isEmpty
  | p :: ps, cs =>
    if p = '*' then cs.tails.any (globMatch ps)
    else
      match cs with
      | [] => false
      | c :: cs' => p = c && globMatch ps cs'

/-- Relative path as displayed: components joined by `/`, modelling
`str(md_file.relative_to(repo_path))` on POSIX. -/
def relPathStr (p : List String) : String :=
  String.intercalate "/" p

/-- Full path string of a discovered entry, modelling `str(md_file)`
(the root path joined with the relative path). -/
def fullPathStr (rootPath : String) (p : List String) : String :=
  rootPath ++ "/" ++ relPathStr p

/-- Embedding of lines 26-28: keep the entries matching `*.md` that are
regular files, in enumeration order. -/
def mdEntryFilter (entries : List (List String × Bool)) : List (List String) :=
  (entries.filter (fun pb => pb.2 && globMatch "*.md".data (nameOf pb.1).data)).map (fun pb => pb.1)

/-- Code-point lexicographic `≤` on character lists: the comparison
Python uses on strings (here, on the individual path components). -/
def lexLe : List Char → List Char → Bool
  | [], _ => true
  | _ :: _, [] => false
  | a :: as, b :: bs => if a = b then lexLe as bs else decide (a < b)

/-- Splits a character sequence on `/`, keeping empty pieces; models
Python `str.split('/')` as used by `PurePath` comparison. -/
def splitSlashAux : List Char → List Char → List String
  | [], acc => [String.mk acc.reverse]
  | c :: cs, acc =>
    if c = '/' then String.mk acc.reverse :: splitSlashAux cs []
    else splitSlashAux cs (c :: acc)

/-- The component list of a path string: `str(path).split('/')`. -/
def splitPath (s : String) : List String :=
  splitSlashAux s.data []

/-- Lexicographic `≤` on path component lists, components compared as
strings by code points: how Python orders `Path` objects (`PurePath`
comparison splits the case-normalized path string on the separator and
compares the resulting component lists; on POSIX the case normalization
is the identity). -/
def partsLe : List String → List String → Bool
  | [], _ => true
  | _ :: _, [] => false
  | a :: as, b :: bs => if a = b then partsLe as bs else lexLe a.data b.data

/-- Comparison of discovered entries as Python compares the `Path`
objects of line 31: by the full path's component list — the root path's
components followed by the relative components.  Note this is not the
code-point order of the joined full-path string: `api.md` sorts after
`api/x.md` here, before it there. -/
def pathLe (rootPath : String) (a b : List String) : Prop :=
  partsLe (splitPath rootPath ++ a) (splitPath rootPath ++ b) = true

instance (rootPath : String) : DecidableRel (pathLe rootPath) :=
  fun _ _ => inferInstanceAs (Decidable (_ = true))

/-- Embedding of line 31, `md_files = sorted(md_files)`: sort the `Path`
objects, i.e. by the full path's component list.  Python's `sorted` is a
stable sort; every stable sort with respect to a total preorder produces
the same output, so the stable `insertionSort` models it faithfully. -/
def sortByFullPath (rootPath : String) (l : List (List String)) : List (List String) :=
  l.insertionSort (pathLe rootPath)

/-- All regular files below the root, for the zero-match diagnostic
listing (lines 43-45: `rglob("*")` filtered to files). -/
def allFilesOf (entries : List (List String × Bool)) : List (List String) :=
  (entries.filter (fun pb => pb.2)).map (fun pb => pb.1)

/-- Specification-side characterization of discovery, stated from the
spec's words for comparison with the implementation: the regular files
under the root (at any depth) whose name ends with the fixed `.md`
suffix, in the program's sort order (by the full path's component list;
see `claim_C4_counterexample` for why this is not the joined-string
order). -/
def discoverySpec (rootPath : String) (t : FSTree) : List (List String) :=
  sortByFullPath rootPath
    (((rootEntries t).filter
        (fun pb => pb.2 && ".md".data.isSuffixOf (nameOf pb.1).data)).map (fun pb => pb.1))

/-! ### Run model -/

/-- Console output alphabet: one constructor per `print` site of
`create_pdf_from_repo`. -/
inductive Event where
  | searching (root : String)
  | dirExists (b : Bool)
  | dirMissing (root : String)
  | foundCount (n : Nat)
  | listedFile (rel : String)
  | moreFiles (n : Nat)
  | noFilesFound (root : String)
  | diagFile (rel : String)
  | emptyFile (rel : String)
  | errorProcessing (path msg : String)
  | generatingPdf (name : String)
  | generatedOk (name : String)
  | genFailed
  | errorGenerating (msg : String)
deriving DecidableEq

/-- State threaded through the per-file loop of lines 191-227:
the accumulated `html_content` string, the `content_sections` list of
(anchor, relative path, converted html) triples, and the console events
emitted so far. -/
structure LoopState where
  html : String
  sections : List (String × String × String)
  events : List Event
deriving DecidableEq

/-- Embedding of the f-string header of lines 171-186, ending with the
open `<ul>` of the table of contents.  `total` is `len(md_files)`. -/
def htmlHeader (output_name rootAbs : String) (total : Nat) : String :=
  "\n    <!DOCTYPE html>\n    <html>\n    <head>\n        <meta charset=\"UTF-8\">\n        <title>"
    ++ output_name ++ " Documentation</title>\n    </head>\n    <body>\n        <h1>"
    ++ output_name ++ " Documentation</h1>\n        <p>Generated from: <code>"
    ++ rootAbs ++ "</code></p>\n        <p>Total files: " ++ pyNatStr total
    ++ "</p>\n\n        <div class=\"toc\">\n            <h2>Table of Contents</h2>\n            <ul>\n    "

/-- Embedding of the TOC entry of lines 196-199 for the file with
discovery index `i` and relative path components `p`. -/
def tocLineOf (i : Nat) (p : List String) : String :=
  "<li style=\"margin-left: " ++ pyNatStr ((p.length - 1) * 20)
    ++ "px;\"><a href=\"#" ++ anchorOf i (relPathStr p) ++ "\">" ++ relPathStr p ++ "</a></li>\n"

/-- Embedding of the TOC-closing fragment of lines 230-233. -/
def tocClose : String :=
  "\n            </ul>\n        </div>\n    "

/-- Embedding of the body section markup of lines 237-242 for one
(anchor, relative path, converted html) triple. -/
def sectionDivOf (s : String × String × String) : String :=
  "\n        <div class=\"file-section\" id=\"" ++ s.1
    ++ "\">\n            <div class=\"file-path\">" ++ s.2.1
    ++ "</div>\n            " ++ s.2.2 ++ "\n        </div>\n        "

/-- One iteration of the loop of lines 191-227 on the enumerated file
`ip = (i, path)`: the TOC entry is appended to the html unconditionally;
then the file is read — a raised exception logs an error and skips, an
empty (after strip) content logs a warning and skips, and otherwise the
converted content is appended to the section list. -/
def processStep (read : List String → Except String String) (convert : String → String)
    (rootPath : String) (st : LoopState) (ip : Nat × List String) : LoopState :=
  let rel := relPathStr ip.2
  let html := st.html ++ tocLineOf ip.1 ip.2
  match read ip.2 with
  | .error e =>
    { html := html, sections := st.sections,
      events := st.events ++ [Event.errorProcessing (fullPathStr rootPath ip.2) e] }
  | .ok content =>
    if (pyStrip content.data).isEmpty then
      { html := html, sections := st.sections, events := st.events ++ [Event.emptyFile rel] }
    else
      { html := html,
        sections := st.sections ++ [(anchorOf ip.1 rel, rel, convert content)],
        events := st.events }

/-- Result of one run: console events in order, the composite HTML built
by the assembly phase (`none` when the run aborts before assembly), and
whether the PDF artifact was written. -/
structure RunResult where
  events : List Event
  html : Option String
  pdfWritten : Bool
deriving DecidableEq

/-- Embedding of lines 33-264 given the already-sorted discovery result
`mdSorted` and, for the zero-match diagnostic, the list `allFiles` of all
regular files under the root. -/
def runSorted (read : List String → Except String String) (convert : String → String)
    (render : String → Except String Unit) (rootPath output_name : String)
    (mdSorted : List (List String)) (allFiles : List (List String)) : RunResult :=
  let ev0 := [Event.searching rootPath, Event.dirExists true, Event.foundCount mdSorted.length]
    ++ (mdSorted.take 10).map (fun p => Event.listedFile (relPathStr p))
    ++ (if mdSorted.length > 10 then [Event.moreFiles (mdSorted.length - 10)] else [])
  if mdSorted.isEmpty then
    { events := ev0 ++ [Event.noFilesFound rootPath]
        ++ allFiles.map (fun p => Event.diagFile (relPathStr p)),
      html := none, pdfWritten := false }
  else
    let st0 : LoopState :=
      { html := htmlHeader output_name rootPath mdSorted.length, sections := [], events := ev0 }
    let st := mdSorted.enum.foldl (processStep read convert rootPath) st0
    let html1 := st.html ++ tocClose
    let html2 := st.sections.foldl (fun h s => h ++ sectionDivOf s) html1
    let html := html2 ++ "</body></html>"
    match render html with
    | .ok _ =>
      { events := st.events ++ [Event.generatingPdf output_name, Event.generatedOk output_name],
        html := some html, pdfWritten := true }
    | .error e =>
      { events := st.events ++ [Event.generatingPdf output_name, Event.errorGenerating e],
        html := some html, pdfWritten := false }

/-- The pipeline from an unsorted discovery enumeration: sort, then run.
Factored out so that independence from the enumeration order can be
stated. -/
def create_pdf_core (read : List String → Except String String) (convert : String → String)
    (render : String → Except String Unit) (rootPath output_name : String)
    (mdUnsorted allFiles : List (List String)) : RunResult :=
  runSorted read convert render rootPath output_name (sortByFullPath rootPath mdUnsorted) allFiles

/-- Embedding of `create_pdf_from_repo` (lines 13-264).  `root = none`
models a missing root directory (`repo_path.exists()` false). -/
def create_pdf_from_repo (read : List String → Except String String) (convert : String → String)
    (render : String → Except String Unit) (root : Option FSTree)
    (rootPath output_name : String) : RunResult :=
  match root with
  | none =>
    { events := [Event.searching rootPath, Event.dirExists false, Event.dirMissing rootPath],
      html := none, pdfWritten := false }
  | some t =>
    create_pdf_core read convert render rootPath output_name
      (mdEntryFilter (rootEntries t)) (allFilesOf (rootEntries t))

/-! ### Derived views of the run, used to state its properties -/

/-- Reads a decimal digit string back into the number it denotes. -/
def decParse (l : List Char) : Nat :=
  l.foldl (fun a c => a * 10 + (c.toNat - 48)) 0

/-- Anchors appearing in the navigation list, in order: one per
discovered file (line 193 computes an anchor for every enumerated file). -/
def tocAnchorsOf (md : List (List String)) : List String :=
  md.enum.map (fun ip => anchorOf ip.1 (relPathStr ip.2))

/-- Concatenation of a list of strings, in order. -/
def concatStr : List String → String
  | [] => ""
  | s :: l => s ++ concatStr l

/-- Per-file view of the loop body of lines 202-227: the section triple
the file contributes to `content_sections`, if any. -/
def sectionTripleOf (read : List String → Except String String) (convert : String → String)
    (ip : Nat × List String) : Option (String × String × String) :=
  match read ip.2 with
  | .error _ => none
  | .ok content =>
    if (pyStrip content.data).isEmpty then none
    else some (anchorOf ip.1 (relPathStr ip.2), relPathStr ip.2, convert content)

/-- Per-file view of the loop body: the console events the file emits. -/
def stepEventsOf (read : List String → Except String String) (rootPath : String)
    (ip : Nat × List String) : List Event :=
  match read ip.2 with
  | .error e => [Event.errorProcessing (fullPathStr rootPath ip.2) e]
  | .ok content =>
    if (pyStrip content.data).isEmpty then [Event.emptyFile (relPathStr ip.2)] else []

/-- The `content_sections` list produced by the loop over the sorted
discovery result `md`. -/
def loopSectionsOf (read : List String → Except String String) (convert : String → String)
    (md : List (List String)) : List (String × String × String) :=
  md.enum.filterMap (sectionTripleOf read convert)

/-- The per-file console events of the whole loop, in order. -/
def loopEventsOf (read : List String → Except String String) (rootPath : String)
    (md : List (List String)) : List Event :=
  md.enum.flatMap (stepEventsOf read rootPath)

/-- The navigation-list markup: TOC entries for every discovered file. -/
def tocHtmlOf (md : List (List String)) : String :=
  concatStr (md.enum.map (fun ip => tocLineOf ip.1 ip.2))

/-- The body markup: one section per successfully converted file. -/
def bodyHtmlOf (secs : List (String × String × String)) : String :=
  concatStr (secs.map sectionDivOf)

/-- The composite HTML document handed to the renderer. -/
def assembledHtml (read : List String → Except String String) (convert : String → String)
    (rootPath output_name : String) (md : List (List String)) : String :=
  htmlHeader output_name rootPath md.length ++ tocHtmlOf md ++ tocClose
    ++ bodyHtmlOf (loopSectionsOf read convert md) ++ "</body></html>"

/-- The discovery-summary console events preceding the loop. -/
def evPrefixOf (rootPath : String) (md : List (List String)) : List Event :=
  [Event.searching rootPath, Event.dirExists true, Event.foundCount md.length]
    ++ (md.take 10).map (fun p => Event.listedFile (relPathStr p))
    ++ (if md.length > 10 then [Event.moreFiles (md.length - 10)] else [])

/-- The sorted discovery result `md_files` for an existing root. -/
def mdFilesOf (rootPath : String) (t : FSTree) : List (List String) :=
  sortByFullPath rootPath (mdEntryFilter (rootEntries t))

def testTree : FSTree :=
  .dir "r" [.file "a.md", .file "c.md", .dir "sub" [.file "b.md"], .file "x.txt"]

def testRead : List String → Except String String := fun p =>
  if p = ["sub", "b.md"] then Except.ok ""
  else if p = ["a.md"] then Except.ok "# Title\n\nhello"
  else Except.ok "## X"

example : sanitize_anchor "sub/b.md" = "subbmd" := by decide
example : sanitize_anchor "  A File.md " = "a-filemd" := by decide
example : anchorOf 0 "b.md" = "section-0-bmd" := by decide
example : pyNatStr 120 = "120" := by decide
example : mdEntryFilter (rootEntries testTree) = [["a.md"], ["c.md"], ["sub", "b.md"]] := by decide
example : sortByFullPath "/r" (mdEntryFilter (rootEntries testTree))
    = [["a.md"], ["c.md"], ["sub", "b.md"]] := by decide
example :
    (create_pdf_from_repo testRead (fun s => s) (fun _ => Except.ok ())
      (some testTree) "/r" "out").pdfWritten = true := by decide
example :
    Event.emptyFile "sub/b.md" ∈
    (create_pdf_from_repo testRead (fun s => s) (fun _ => Except.ok ())
      (some testTree) "/r" "out").events := by decide

/-! ### Character-level facts -/

theorem char_eq_iff_toNat_eq {c d : Char} : c = d ↔ c.toNat = d.toNat :=
  ⟨fun h => h ▸ rfl, fun h => Char.eq_of_val_eq (UInt32.toNat.inj h)⟩

theorem toNat_toLower (c : Char) :
    (Char.toLower c).toNat = if c.toNat ≥ 65 ∧ c.toNat ≤ 90 then c.toNat + 32 else c.toNat := by
  unfold Char.toLower
  split
  · next h =>
    rw [if_pos h]
    have hv : (c.toNat + 32).isValidChar := Or.inl (by omega)
    rw [Char.ofNat, dif_pos hv]
    rfl
  · next h => rw [if_neg h]

theorem pyIsSpaceChar_iff {c : Char} :
    pyIsSpaceChar c = true ↔
      c.toNat = 32 ∨ c.toNat = 9 ∨ c.toNat = 10 ∨ c.toNat = 13 ∨ c.toNat = 11 ∨ c.toNat = 12 := by
  simp only [pyIsSpaceChar, Bool.or_eq_true, decide_eq_true_eq, @char_eq_iff_toNat_eq c,
    show ' '.toNat = 32 from rfl, show '\t'.toNat = 9 from rfl, show '\n'.toNat = 10 from rfl,
    show '\x0d'.toNat = 13 from rfl, show '\x0b'.toNat = 11 from rfl,
    show '\x0c'.toNat = 12 from rfl]
  tauto

theorem isUpper_iff {c : Char} : c.isUpper = true ↔ 65 ≤ c.toNat ∧ c.toNat ≤ 90 := by
  simp [Char.isUpper, UInt32.le_def, BitVec.le_def, Char.toNat, UInt32.toNat]

theorem isLower_iff {c : Char} : c.isLower = true ↔ 97 ≤ c.toNat ∧ c.toNat ≤ 122 := by
  simp [Char.isLower, UInt32.le_def, BitVec.le_def, Char.toNat, UInt32.toNat]

theorem isDigit_iff {c : Char} : c.isDigit = true ↔ 48 ≤ c.toNat ∧ c.toNat ≤ 57 := by
  simp [Char.isDigit, UInt32.le_def, BitVec.le_def, Char.toNat, UInt32.toNat]

theorem pyIsWordChar_iff {c : Char} :
    pyIsWordChar c = true ↔
      (65 ≤ c.toNat ∧ c.toNat ≤ 90) ∨ (97 ≤ c.toNat ∧ c.toNat ≤ 122) ∨
      (48 ≤ c.toNat ∧ c.toNat ≤ 57) ∨ c.toNat = 95 := by
  simp [pyIsWordChar, Char.isAlpha, isUpper_iff, isLower_iff, isDigit_iff,
    @char_eq_iff_toNat_eq c, or_assoc]

theorem pyIsSpaceChar_toLower (c : Char) : pyIsSpaceChar (Char.toLower c) = pyIsSpaceChar c := by
  rcases h : pyIsSpaceChar c with _ | _
  · rcases h2 : pyIsSpaceChar (Char.toLower c) with _ | _
    · rfl
    · rw [pyIsSpaceChar_iff, toNat_toLower] at h2
      rw [Bool.eq_false_iff] at h
      exfalso
      apply h
      rw [pyIsSpaceChar_iff]
      split at h2 <;> omega
  · rw [pyIsSpaceChar_iff] at h
    rw [pyIsSpaceChar_iff, toNat_toLower]
    split <;> omega

theorem isUpper_toLower (c : Char) : (Char.toLower c).isUpper = false := by
  rcases h : (Char.toLower c).isUpper with _ | _
  · rfl
  · rw [isUpper_iff, toNat_toLower] at h
    split at h <;> omega

theorem pyIsWordChar_toLower {c : Char} (h : pyIsWordChar c = true) :
    pyIsWordChar (Char.toLower c) = true := by
  rw [pyIsWordChar_iff] at h ⊢
  rw [toNat_toLower]
  split <;> omega

/-! ### Properties of sanitize_anchor -/

theorem data_sanitize_anchor (s : String) :
    (sanitize_anchor s).data = pyLower (pyReplaceSpace (pyStrip (reSubKeep s.data))) := rfl

theorem pyStrip_sublist (l : List Char) : List.Sublist (pyStrip l) l := by
  unfold pyStrip
  have h1 : List.Sublist ((l.dropWhile pyIsSpaceChar).reverse.dropWhile pyIsSpaceChar)
      (l.dropWhile pyIsSpaceChar).reverse := List.dropWhile_sublist _
  have h2 := h1.reverse
  rw [List.reverse_reverse] at h2
  exact h2.trans (List.dropWhile_sublist _)

theorem pyStrip_prefix_dropWhile (l : List Char) :
    pyStrip l <+: l.dropWhile pyIsSpaceChar := by
  unfold pyStrip
  have h1 : (l.dropWhile pyIsSpaceChar).reverse.dropWhile pyIsSpaceChar <:+
      (l.dropWhile pyIsSpaceChar).reverse := List.dropWhile_suffix _
  have h2 : ((l.dropWhile pyIsSpaceChar).reverse.dropWhile pyIsSpaceChar).reverse.reverse <:+
      (l.dropWhile pyIsSpaceChar).reverse := by rwa [List.reverse_reverse]
  exact List.reverse_suffix.mp h2

theorem head_pyStrip_not_space {l : List Char} {c : Char}
    (h : (pyStrip l).head? = some c) : pyIsSpaceChar c = false := by
  obtain ⟨t, ht⟩ := pyStrip_prefix_dropWhile l
  have hd : (l.dropWhile pyIsSpaceChar).head? = some c := by
    rw [← ht, List.head?_append, h]
    rfl
  have := List.head?_dropWhile_not pyIsSpaceChar l
  rw [hd] at this
  exact this

theorem getLast_pyStrip_not_space {l : List Char} {c : Char}
    (h : (pyStrip l).getLast? = some c) : pyIsSpaceChar c = false := by
  unfold pyStrip at h
  rw [List.getLast?_reverse] at h
  have := List.head?_dropWhile_not pyIsSpaceChar (l.dropWhile pyIsSpaceChar).reverse
  rw [h] at this
  exact this

theorem mem_sanitize_anchor {s : String} {c : Char} (h : c ∈ (sanitize_anchor s).data) :
    ∃ e, (pyIsWordChar e || pyIsSpaceChar e || decide (e = '-')) = true ∧
      c = Char.toLower (if e = ' ' then '-' else e) := by
  rw [data_sanitize_anchor] at h
  obtain ⟨d, hd, rfl⟩ := List.mem_map.mp h
  obtain ⟨e, he, rfl⟩ := List.mem_map.mp hd
  have hmem : e ∈ reSubKeep s.data := (pyStrip_sublist _).subset he
  exact ⟨e, (List.mem_filter.mp hmem).2, rfl⟩

theorem sanitize_anchor_charset {s : String} {c : Char} (hc : c ∈ (sanitize_anchor s).data) :
    (pyIsWordChar c || pyIsSpaceChar c || decide (c = '-')) = true ∧ c ≠ ' ' ∧
      c.isUpper = false := by
  obtain ⟨e, he, rfl⟩ := mem_sanitize_anchor hc
  have he' : pyIsWordChar e = true ∨ pyIsSpaceChar e = true ∨ e = '-' := by
    simpa [or_assoc] using he
  by_cases hsp : e = ' '
  · subst hsp
    exact ⟨by decide, by decide, by decide⟩
  · rw [if_neg hsp]
    have h32 : e.toNat ≠ 32 := fun h => hsp (char_eq_iff_toNat_eq.mpr h)
    refine ⟨?_, ?_, isUpper_toLower e⟩
    · rcases he' with hw | hs | hd
      · simp [pyIsWordChar_toLower hw]
      · simp [pyIsSpaceChar_toLower, hs]
      · subst hd; decide
    · rw [Ne, char_eq_iff_toNat_eq, toNat_toLower]
      simp only [show ' '.toNat = 32 from rfl]
      rcases he' with hw | hs | hd
      · rw [pyIsWordChar_iff] at hw
        split <;> omega
      · rw [pyIsSpaceChar_iff] at hs
        split <;> omega
      · subst hd; decide

theorem sanitize_anchor_head {s : String} {c : Char}
    (hc : (sanitize_anchor s).data.head? = some c) : pyIsSpaceChar c = false := by
  rw [data_sanitize_anchor] at hc
  unfold pyLower pyReplaceSpace at hc
  rw [List.head?_map, List.head?_map] at hc
  cases hd : (pyStrip (reSubKeep s.data)).head? with
  | none => rw [hd] at hc; simp at hc
  | some d =>
    rw [hd] at hc
    simp only [Option.map_some'] at hc
    have hdns := head_pyStrip_not_space hd
    have hne : d ≠ ' ' := fun h => by rw [h] at hdns; exact absurd hdns (by decide)
    rw [if_neg hne] at hc
    obtain rfl := Option.some.inj hc
    rw [pyIsSpaceChar_toLower]
    exact hdns

theorem sanitize_anchor_last {s : String} {c : Char}
    (hc : (sanitize_anchor s).data.getLast? = some c) : pyIsSpaceChar c = false := by
  rw [data_sanitize_anchor] at hc
  unfold pyLower pyReplaceSpace at hc
  rw [List.getLast?_map, List.getLast?_map] at hc
  cases hd : (pyStrip (reSubKeep s.data)).getLast? with
  | none => rw [hd] at hc; simp at hc
  | some d =>
    rw [hd] at hc
    simp only [Option.map_some'] at hc
    have hdns := getLast_pyStrip_not_space hd
    have hne : d ≠ ' ' := fun h => by rw [h] at hdns; exact absurd hdns (by decide)
    rw [if_neg hne] at hc
    obtain rfl := Option.some.inj hc
    rw [pyIsSpaceChar_toLower]
    exact hdns

/-! ### Decimal representation and anchor uniqueness -/

theorem digitChar_toNat {n : Nat} (h : n < 10) : (Nat.digitChar n).toNat = 48 + n := by
  interval_cases n <;> rfl

theorem digitChar_isDigit {n : Nat} (h : n < 10) : (Nat.digitChar n).isDigit = true := by
  interval_cases n <;> rfl

theorem decCharsAux_digits :
    ∀ fuel n, n ≤ fuel → ∀ c ∈ decCharsAux fuel n, c.isDigit = true := by
  intro fuel
  induction fuel with
  | zero =>
    intro n hn c hc
    interval_cases n
    simp only [decCharsAux, List.mem_singleton] at hc
    subst hc
    decide
  | succ fuel ih =>
    intro n hn c hc
    rw [decCharsAux] at hc
    by_cases h10 : n < 10
    · rw [if_pos h10, List.mem_singleton] at hc
      subst hc
      exact digitChar_isDigit h10
    · rw [if_neg h10, List.mem_append] at hc
      have hdiv : n / 10 ≤ fuel := by
        have h1 : n / 10 < n := Nat.div_lt_self (by omega) (by omega)
        omega
      rcases hc with hc | hc
      · exact ih (n / 10) hdiv c hc
      · rw [List.mem_singleton] at hc
        subst hc
        exact digitChar_isDigit (Nat.mod_lt _ (by omega))

theorem decCharsAux_parse : ∀ fuel n, n ≤ fuel → decParse (decCharsAux fuel n) = n := by
  intro fuel
  induction fuel with
  | zero =>
    intro n hn
    interval_cases n
    decide
  | succ fuel ih =>
    intro n hn
    rw [decCharsAux]
    by_cases h10 : n < 10
    · rw [if_pos h10]
      show 0 * 10 + ((Nat.digitChar n).toNat - 48) = n
      rw [digitChar_toNat h10]
      omega
    · rw [if_neg h10]
      have hdiv : n / 10 ≤ fuel := by
        have h1 : n / 10 < n := Nat.div_lt_self (by omega) (by omega)
        omega
      unfold decParse
      rw [List.foldl_append]
      have hrec := ih (n / 10) hdiv
      unfold decParse at hrec
      rw [hrec]
      show (n / 10) * 10 + ((Nat.digitChar (n % 10)).toNat - 48) = n
      rw [digitChar_toNat (Nat.mod_lt _ (by omega))]
      omega

theorem decChars_digits (n : Nat) : ∀ c ∈ decChars n, c.isDigit = true :=
  decCharsAux_digits n n le_rfl

theorem decChars_inj {m n : Nat} (h : decChars m = decChars n) : m = n := by
  have hm := decCharsAux_parse m m le_rfl
  have hn := decCharsAux_parse n n le_rfl
  unfold decChars at h
  rw [h, hn] at hm
  exact hm.symm

theorem digits_dash_inj :
    ∀ (l₁ : List Char) {l₂ : List Char} {a b : List Char},
      (∀ c ∈ l₁, c.isDigit = true) → (∀ c ∈ l₂, c.isDigit = true) →
      l₁ ++ '-' :: a = l₂ ++ '-' :: b → l₁ = l₂ ∧ a = b := by
  intro l₁
  induction l₁ with
  | nil =>
    intro l₂ a b _ h2 h
    cases l₂ with
    | nil => simpa using h
    | cons x xs =>
      rw [List.nil_append, List.cons_append, List.cons_eq_cons] at h
      have hx := h2 x (by simp)
      rw [← h.1] at hx
      exact absurd hx (by decide)
  | cons y ys ih =>
    intro l₂ a b h1 h2 h
    cases l₂ with
    | nil =>
      rw [List.nil_append, List.cons_append, List.cons_eq_cons] at h
      have hy := h1 y (by simp)
      rw [h.1] at hy
      exact absurd hy (by decide)
    | cons x xs =>
      rw [List.cons_append, List.cons_append, List.cons_eq_cons] at h
      obtain ⟨rfl, h⟩ := h
      obtain ⟨rfl, rfl⟩ := ih (fun c hc => h1 c (by simp [hc]))
        (fun c hc => h2 c (by simp [hc])) h
      exact ⟨rfl, rfl⟩

theorem anchorOf_inj_index {i j : Nat} {r s : String}
    (h : anchorOf i r = anchorOf j s) : i = j := by
  unfold anchorOf at h
  rw [String.ext_iff] at h
  simp only [String.data_append] at h
  simp only [List.append_assoc, List.singleton_append] at h
  have h' := List.append_cancel_left h
  exact decChars_inj (digits_dash_inj (pyNatStr i).data
    (decChars_digits i) (decChars_digits j) h').1

/-- Helper: in a list of indexed pairs whose first components are
pairwise distinct, a member is determined by its first component. -/
theorem eq_of_fst_eq_of_nodup_keys {β : Type} {l : List (Nat × β)}
    (h : (l.map Prod.fst).Nodup) {x y : Nat × β}
    (hx : x ∈ l) (hy : y ∈ l) (hfst : x.1 = y.1) : x = y := by
  induction l with
  | nil => cases hx
  | cons z zs ih =>
    rw [List.map_cons, List.nodup_cons] at h
    rcases List.mem_cons.mp hx with rfl | hx' <;>
      rcases List.mem_cons.mp hy with rfl | hy'
    · rfl
    · exact absurd (hfst ▸ List.mem_map_of_mem Prod.fst hy') h.1
    · exact absurd (hfst ▸ List.mem_map_of_mem Prod.fst hx') h.1
    · exact ih h.2 hx' hy'

theorem nodup_enumFrom (n : Nat) {α : Type} (l : List α) : (l.enumFrom n).Nodup := by
  have h : ((l.enumFrom n).map Prod.fst).Nodup := by
    rw [List.enumFrom_map_fst]
    exact List.nodup_range' n l.length
  exact h.of_map

/-! ### Loop and run characterization -/

theorem processStep_eq (read : List String → Except String String) (convert : String → String)
    (rootPath : String) (st : LoopState) (ip : Nat × List String) :
    processStep read convert rootPath st ip =
      { html := st.html ++ tocLineOf ip.1 ip.2,
        sections := st.sections ++ (sectionTripleOf read convert ip).toList,
        events := st.events ++ stepEventsOf read rootPath ip } := by
  unfold processStep sectionTripleOf stepEventsOf
  cases read ip.2 with
  | error e => simp
  | ok content =>
    by_cases he : (pyStrip content.data).isEmpty <;> simp [he]

theorem foldl_processStep (read : List String → Except String String)
    (convert : String → String) (rootPath : String) :
    ∀ (l : List (List String)) (n : Nat) (st : LoopState),
      (l.enumFrom n).foldl (processStep read convert rootPath) st =
        { html := st.html ++ concatStr ((l.enumFrom n).map (fun ip => tocLineOf ip.1 ip.2)),
          sections := st.sections ++ (l.enumFrom n).filterMap (sectionTripleOf read convert),
          events := st.events ++ (l.enumFrom n).flatMap (stepEventsOf read rootPath) } := by
  intro l
  induction l with
  | nil =>
    intro n st
    simp [concatStr]
  | cons p l ih =>
    intro n st
    rw [List.enumFrom_cons, List.foldl_cons, ih, processStep_eq]
    cases hsec : sectionTripleOf read convert (n, p) <;>
      simp [List.filterMap_cons, hsec, concatStr, String.append_assoc, List.append_assoc]

theorem foldl_sectionDiv (l : List (String × String × String)) :
    ∀ a : String, l.foldl (fun h s => h ++ sectionDivOf s) a = a ++ concatStr (l.map sectionDivOf) := by
  induction l with
  | nil => intro a; simp [concatStr]
  | cons s l ih =>
    intro a
    rw [List.foldl_cons, ih]
    simp [concatStr, String.append_assoc]

theorem runSorted_eq (read : List String → Except String String) (convert : String → String)
    (render : String → Except String Unit) (rootPath output_name : String)
    (md allFiles : List (List String)) (h : md ≠ []) :
    runSorted read convert render rootPath output_name md allFiles =
      match render (assembledHtml read convert rootPath output_name md) with
      | .ok _ =>
        { events := evPrefixOf rootPath md ++ loopEventsOf read rootPath md
            ++ [Event.generatingPdf output_name, Event.generatedOk output_name],
          html := some (assembledHtml read convert rootPath output_name md),
          pdfWritten := true }
      | .error e =>
        { events := evPrefixOf rootPath md ++ loopEventsOf read rootPath md
            ++ [Event.generatingPdf output_name, Event.errorGenerating e],
          html := some (assembledHtml read convert rootPath output_name md),
          pdfWritten := false } := by
  unfold runSorted
  rw [if_neg (by simpa using h)]
  have hfold := foldl_processStep read convert rootPath md 0
    { html := htmlHeader output_name rootPath md.length, sections := [],
      events := evPrefixOf rootPath md }
  rw [List.enum] at *
  simp only [evPrefixOf] at hfold ⊢
  rw [hfold, foldl_sectionDiv]
  rfl

theorem runSorted_empty (read : List String → Except String String) (convert : String → String)
    (render : String → Except String Unit) (rootPath output_name : String)
    (allFiles : List (List String)) :
    runSorted read convert render rootPath output_name [] allFiles =
      { events := [Event.searching rootPath, Event.dirExists true, Event.foundCount 0,
          Event.noFilesFound rootPath] ++ allFiles.map (fun p => Event.diagFile (relPathStr p)),
        html := none, pdfWritten := false } := rfl

/-! ### Glob matching versus suffix test -/

theorem globMatch_cons (p : Char) (ps cs : List Char) :
    globMatch (p :: ps) cs =
      if p = '*' then cs.tails.any (globMatch ps)
      else
        match cs with
        | [] => false
        | c :: cs' => p = c && globMatch ps cs' := rfl

theorem globMatch_literal :
    ∀ {ps : List Char}, '*' ∉ ps → ∀ cs, (globMatch ps cs = true ↔ ps = cs) := by
  intro ps
  induction ps with
  | nil => intro _ cs; cases cs <;> simp [globMatch]
  | cons p ps ih =>
    intro hps cs
    have hp : p ≠ '*' := fun h => hps (h ▸ List.mem_cons_self p ps)
    have hps' : '*' ∉ ps := fun h => hps (List.mem_cons_of_mem p h)
    cases cs with
    | nil => simp [globMatch, hp]
    | cons c cs' =>
      rw [globMatch_cons, if_neg hp]
      simp [ih hps' cs', List.cons_eq_cons]

theorem globMatch_star (ps cs : List Char) :
    globMatch ('*' :: ps) cs = true ↔ ∃ t, t <:+ cs ∧ globMatch ps t = true := by
  rw [globMatch_cons, if_pos rfl]
  simp only [List.any_eq_true, List.mem_tails]

theorem globMatch_md (cs : List Char) :
    globMatch "*.md".data cs = true ↔ ".md".data <:+ cs := by
  rw [show "*.md".data = '*' :: ".md".data from rfl, globMatch_star]
  constructor
  · rintro ⟨t, hts, hm⟩
    rw [globMatch_literal (by decide) t] at hm
    exact hm ▸ hts
  · intro h
    exact ⟨".md".data, h, (globMatch_literal (by decide) _).mpr rfl⟩

/-! ### The lexicographic comparison and sorting -/

theorem lexLe_total : ∀ a b : List Char, lexLe a b = true ∨ lexLe b a = true := by
  intro a
  induction a with
  | nil => intro b; left; rfl
  | cons x xs ih =>
    intro b
    cases b with
    | nil => right; rfl
    | cons y ys =>
      by_cases hxy : x = y
      · subst hxy
        rcases ih ys with h | h
        · left; simpa [lexLe] using h
        · right; simpa [lexLe] using h
      · rcases lt_or_gt_of_ne hxy with h | h
        · left; simp [lexLe, hxy, h]
        · right; simp [lexLe, Ne.symm hxy, h]

theorem lexLe_trans :
    ∀ {a b c : List Char}, lexLe a b = true → lexLe b c = true → lexLe a c = true := by
  intro a
  induction a with
  | nil => intro b c _ _; rfl
  | cons x xs ih =>
    intro b c hab hbc
    cases b with
    | nil => simp [lexLe] at hab
    | cons y ys =>
      cases c with
      | nil => simp [lexLe] at hbc
      | cons z zs =>
        rw [lexLe] at hab hbc ⊢
        by_cases hxy : x = y <;> by_cases hyz : y = z
        · subst hxy; subst hyz
          rw [if_pos rfl] at hab hbc ⊢
          exact ih hab hbc
        · subst hxy
          rw [if_pos rfl] at hab
          rw [if_neg hyz] at hbc ⊢
          exact hbc
        · subst hyz
          rw [if_pos rfl] at hbc
          rw [if_neg hxy] at hab ⊢
          exact hab
        · rw [if_neg hxy] at hab
          rw [if_neg hyz] at hbc
          have hxz : x < z := lt_trans (of_decide_eq_true hab) (of_decide_eq_true hbc)
          have hxz' : x ≠ z := ne_of_lt hxz
          rw [if_neg hxz']
          exact decide_eq_true hxz

theorem lexLe_antisymm :
    ∀ {a b : List Char}, lexLe a b = true → lexLe b a = true → a = b := by
  intro a
  induction a with
  | nil =>
    intro b _ hba
    cases b with
    | nil => rfl
    | cons y ys => simp [lexLe] at hba
  | cons x xs ih =>
    intro b hab hba
    cases b with
    | nil => simp [lexLe] at hab
    | cons y ys =>
      rw [lexLe] at hab hba
      by_cases hxy : x = y
      · subst hxy
        rw [if_pos rfl] at hab hba
        rw [ih hab hba]
      · rw [if_neg hxy] at hab
        rw [if_neg (Ne.symm hxy)] at hba
        exact absurd (lt_trans (of_decide_eq_true hab) (of_decide_eq_true hba))
          (lt_irrefl x)

theorem partsLe_total : ∀ a b : List String, partsLe a b = true ∨ partsLe b a = true := by
  intro a
  induction a with
  | nil => intro b; left; rfl
  | cons x xs ih =>
    intro b
    cases b with
    | nil => right; rfl
    | cons y ys =>
      by_cases hxy : x = y
      · subst hxy
        rcases ih ys with h | h
        · left; simpa [partsLe] using h
        · right; simpa [partsLe] using h
      · rcases lexLe_total x.data y.data with h | h
        · left; simp [partsLe, hxy, h]
        · right; simp [partsLe, Ne.symm hxy, h]

theorem partsLe_trans :
    ∀ {a b c : List String}, partsLe a b = true → partsLe b c = true → partsLe a c = true := by
  intro a
  induction a with
  | nil => intro b c _ _; rfl
  | cons x xs ih =>
    intro b c hab hbc
    cases b with
    | nil => simp [partsLe] at hab
    | cons y ys =>
      cases c with
      | nil => simp [partsLe] at hbc
      | cons z zs =>
        rw [partsLe] at hab hbc ⊢
        by_cases hxy : x = y <;> by_cases hyz : y = z
        · subst hxy; subst hyz
          rw [if_pos rfl] at hab hbc ⊢
          exact ih hab hbc
        · subst hxy
          rw [if_pos rfl] at hab
          rw [if_neg hyz] at hbc ⊢
          exact hbc
        · subst hyz
          rw [if_pos rfl] at hbc
          rw [if_neg hxy] at hab ⊢
          exact hab
        · rw [if_neg hxy] at hab
          rw [if_neg hyz] at hbc
          have hxz : x ≠ z := by
            intro h
            subst h
            exact hxy (String.ext (lexLe_antisymm hab hbc))
          rw [if_neg hxz]
          exact lexLe_trans hab hbc

theorem partsLe_antisymm :
    ∀ {a b : List String}, partsLe a b = true → partsLe b a = true → a = b := by
  intro a
  induction a with
  | nil =>
    intro b _ hba
    cases b with
    | nil => rfl
    | cons y ys => simp [partsLe] at hba
  | cons x xs ih =>
    intro b hab hba
    cases b with
    | nil => simp [partsLe] at hab
    | cons y ys =>
      rw [partsLe] at hab hba
      by_cases hxy : x = y
      · subst hxy
        rw [if_pos rfl] at hab hba
        rw [ih hab hba]
      · rw [if_neg hxy] at hab
        rw [if_neg (Ne.symm hxy)] at hba
        exact absurd (String.ext (lexLe_antisymm hab hba)) hxy

theorem pathLe_total (rootPath : String) :
    ∀ a b : List String, pathLe rootPath a b ∨ pathLe rootPath b a := fun a b =>
  partsLe_total (splitPath rootPath ++ a) (splitPath rootPath ++ b)

theorem pathLe_trans (rootPath : String) {a b c : List String}
    (h1 : pathLe rootPath a b) (h2 : pathLe rootPath b c) : pathLe rootPath a c :=
  partsLe_trans h1 h2

theorem pathLe_antisymm (rootPath : String) {a b : List String}
    (h1 : pathLe rootPath a b) (h2 : pathLe rootPath b a) : a = b :=
  List.append_cancel_left (partsLe_antisymm h1 h2)

theorem sortByFullPath_sorted (rootPath : String) (l : List (List String)) :
    List.Sorted (pathLe rootPath) (sortByFullPath rootPath l) := by
  haveI : IsTotal (List String) (pathLe rootPath) := ⟨pathLe_total rootPath⟩
  haveI : IsTrans (List String) (pathLe rootPath) := ⟨fun _ _ _ => pathLe_trans rootPath⟩
  exact List.sorted_insertionSort (pathLe rootPath) l

theorem sortByFullPath_perm (rootPath : String) (l : List (List String)) :
    (sortByFullPath rootPath l).Perm l :=
  List.perm_insertionSort (pathLe rootPath) l

/-- Two unsorted discovery enumerations that are permutations of each
other sort to the same list (`pathLe` is antisymmetric outright, so the
distinct-keys hypothesis a real filesystem provides is not even needed). -/
theorem sortByFullPath_eq_of_perm (rootPath : String) {l₁ l₂ : List (List String)}
    (hperm : l₁.Perm l₂)
    (_hkeys : l₁.Pairwise (fun a b => fullPathStr rootPath a ≠ fullPathStr rootPath b)) :
    sortByFullPath rootPath l₁ = sortByFullPath rootPath l₂ := by
  haveI : IsAntisymm (List String) (pathLe rootPath) :=
    ⟨fun a b h1 h2 => pathLe_antisymm rootPath h1 h2⟩
  have hp : (sortByFullPath rootPath l₁).Perm (sortByFullPath rootPath l₂) :=
    ((sortByFullPath_perm rootPath l₁).trans hperm).trans
      (sortByFullPath_perm rootPath l₂).symm
  exact List.eq_of_perm_of_sorted hp
    (sortByFullPath_sorted rootPath l₁) (sortByFullPath_sorted rootPath l₂)

theorem globMatch_md_eq_isSuffixOf (cs : List Char) :
    globMatch "*.md".data cs = ".md".data.isSuffixOf cs := by
  have h1 := globMatch_md cs
  have h2 : (".md".data.isSuffixOf cs) = true ↔ ".md".data <:+ cs :=
    List.isSuffixOf_iff_suffix
  rcases hb : globMatch "*.md".data cs with _ | _
  · rcases hc : ".md".data.isSuffixOf cs with _ | _
    · rfl
    · have := h1.mpr (h2.mp hc)
      rw [hb] at this
      exact absurd this (by decide)
  · exact (h2.mpr (h1.mp hb)).symm

/-! ### Bridges between the run and its derived views -/

theorem create_pdf_some (read : List String → Except String String) (convert : String → String)
    (render : String → Except String Unit) (rootPath output_name : String) (t : FSTree) :
    create_pdf_from_repo read convert render (some t) rootPath output_name =
      runSorted read convert render rootPath output_name (mdFilesOf rootPath t)
        (allFilesOf (rootEntries t)) := rfl

theorem run_html_of_ne (read : List String → Except String String) (convert : String → String)
    (render : String → Except String Unit) (rootPath output_name : String) (t : FSTree)
    (h : mdFilesOf rootPath t ≠ []) :
    (create_pdf_from_repo read convert render (some t) rootPath output_name).html =
      some (assembledHtml read convert rootPath output_name (mdFilesOf rootPath t)) := by
  rw [create_pdf_some, runSorted_eq read convert render rootPath output_name _ _ h]
  cases render (assembledHtml read convert rootPath output_name (mdFilesOf rootPath t)) <;> rfl

theorem run_events_of_ne (read : List String → Except String String) (convert : String → String)
    (render : String → Except String Unit) (rootPath output_name : String) (t : FSTree)
    (h : mdFilesOf rootPath t ≠ []) :
    ∃ tail,
      (create_pdf_from_repo read convert render (some t) rootPath output_name).events =
        evPrefixOf rootPath (mdFilesOf rootPath t)
          ++ loopEventsOf read rootPath (mdFilesOf rootPath t)
          ++ Event.generatingPdf output_name :: tail := by
  rw [create_pdf_some, runSorted_eq read convert render rootPath output_name _ _ h]
  cases render (assembledHtml read convert rootPath output_name (mdFilesOf rootPath t)) with
  | ok u => exact ⟨[Event.generatedOk output_name], by simp⟩
  | error e => exact ⟨[Event.errorGenerating e], by simp⟩

theorem tocAnchorsOf_nodup (md : List (List String)) : (tocAnchorsOf md).Nodup := by
  unfold tocAnchorsOf
  have hkeys : ((md.enum).map Prod.fst).Nodup := by
    rw [List.enum, List.enumFrom_map_fst]
    exact List.nodup_range' 0 md.length
  apply (nodup_enumFrom 0 md).map_on
  intro x hx y hy hxy
  exact eq_of_fst_eq_of_nodup_keys hkeys hx hy (anchorOf_inj_index hxy)

theorem sectionTripleOf_fst {read : List String → Except String String}
    {convert : String → String} {ip : Nat × List String} {v : String × String × String}
    (h : sectionTripleOf read convert ip = some v) :
    v.1 = anchorOf ip.1 (relPathStr ip.2) := by
  unfold sectionTripleOf at h
  split at h
  · cases h
  · split at h
    · cases h
    · obtain rfl := Option.some.inj h
      rfl

theorem sectionAnchors_eq (read : List String → Except String String)
    (convert : String → String) :
    ∀ l : List (Nat × List String),
      (l.filterMap (sectionTripleOf read convert)).map (fun s => s.1) =
        (l.filter (fun ip => (sectionTripleOf read convert ip).isSome)).map
          (fun ip => anchorOf ip.1 (relPathStr ip.2)) := by
  intro l
  induction l with
  | nil => rfl
  | cons ip l ih =>
    cases hs : sectionTripleOf read convert ip with
    | none => simp [List.filterMap_cons, List.filter_cons, hs, ih]
    | some v =>
      simp [List.filterMap_cons, List.filter_cons, hs, ih, sectionTripleOf_fst hs]

/-! ### The claims -/

/-- C2: anchors are pairwise distinct across the processed files of a
run: the anchor string `section-<i>-<sanitized path>` determines the
discovery-order index `i`, so the anchor list of any discovery result has
no duplicates — even when two distinct relative paths sanitize to the
same string. -/
theorem claim_C2 :
    (∀ (i j : Nat) (r s : String), anchorOf i r = anchorOf j s → i = j) ∧
    ∀ md : List (List String), (tocAnchorsOf md).Nodup :=
  ⟨fun _ _ _ _ h => anchorOf_inj_index h, tocAnchorsOf_nodup⟩

/-- Witness for C2 at concrete inputs: the two paths `a.md` and `a:md`
sanitize to the same string, yet their anchor list has no duplicates. -/
theorem claim_C2_witness :
    (1 : Nat) = 1 ∧ (tocAnchorsOf [["a.md"], ["a:md"]]).Nodup ∧
      sanitize_anchor "a.md" = sanitize_anchor "a:md" :=
  ⟨claim_C2.1 1 1 "x.md" "x.md" rfl, claim_C2.2 [["a.md"], ["a:md"]], by decide⟩

/-- C3 counterexample: on the input `"a\tb"` the sanitizer returns
`"a\tb"` unchanged — the tab survives `re.sub(r'[^\w\s-]', '', ·)`
(it matches `\s`) and is not replaced by `replace(' ', '-')` — so the
output is not made of word characters, spaces and hyphens only. -/
theorem claim_C3_counterexample :
    sanitize_anchor "a\tb" = "a\tb" ∧
    ¬ (∀ c ∈ (sanitize_anchor "a\tb").data,
        pyIsWordChar c = true ∨ c = ' ' ∨ c = '-') := by
  decide

/-- C3 (amended): every character of the output is a word character,
a whitespace character, or a hyphen; the output contains no space
character proper (U+0020) — only spaces, not other whitespace, are
replaced by hyphens — it contains no uppercase ASCII letter, and it
neither starts nor ends with whitespace. -/
theorem claim_C3 (s : String) :
    (∀ c ∈ (sanitize_anchor s).data,
        (pyIsWordChar c || pyIsSpaceChar c || decide (c = '-')) = true ∧ c ≠ ' ' ∧
          c.isUpper = false) ∧
    (∀ c, (sanitize_anchor s).data.head? = some c → pyIsSpaceChar c = false) ∧
    (∀ c, (sanitize_anchor s).data.getLast? = some c → pyIsSpaceChar c = false) :=
  ⟨fun _ hc => sanitize_anchor_charset hc,
   fun _ hc => sanitize_anchor_head hc,
   fun _ hc => sanitize_anchor_last hc⟩

/-- Witness for C3 at the concrete input `" A b\t.md "` (whose sanitized
form is `"a-b\tmd"`). -/
theorem claim_C3_witness :
    ((pyIsWordChar 'a' || pyIsSpaceChar 'a' || decide ('a' = '-')) = true ∧ 'a' ≠ ' ' ∧
      Char.isUpper 'a' = false) ∧
    pyIsSpaceChar 'a' = false ∧ pyIsSpaceChar 'd' = false :=
  ⟨(claim_C3 " A b\t.md ").1 'a' (by decide),
   (claim_C3 " A b\t.md ").2.1 'a' (by decide),
   (claim_C3 " A b\t.md ").2.2 'd' (by decide)⟩

/-- C4 counterexample: at a root containing `api.md` and `api/x.md`,
discovery yields `api/x.md` before `api.md` — Python compares `Path`
objects by their component lists, and the component `api` sorts before
`api.md` — whereas the full-path strings satisfy `/r/api.md` <
`/r/api/x.md` (`.` is code point 0x2E, below `/` at 0x2F).  So the
discovery result is not sorted lexicographically by the full path
string. -/
theorem claim_C4_counterexample :
    mdFilesOf "/r"
        (FSTree.dir "r" [FSTree.file "api.md", FSTree.dir "api" [FSTree.file "x.md"]]) =
      [["api", "x.md"], ["api.md"]] ∧
    lexLe (fullPathStr "/r" ["api.md"]).data (fullPathStr "/r" ["api", "x.md"]).data = true ∧
    (["api.md"] : List String) ≠ ["api", "x.md"] ∧
    ¬ (mdFilesOf "/r"
        (FSTree.dir "r" [FSTree.file "api.md", FSTree.dir "api" [FSTree.file "x.md"]])).Pairwise
      (fun a b => lexLe (fullPathStr "/r" a).data (fullPathStr "/r" b).data = true) := by
  decide

/-- C4 (amended): discovery returns exactly the regular files under the
root (at any depth) whose name ends with `.md` — the `fnmatch` pattern
`*.md` accepts precisely the names with suffix `.md` — sorted in `Path`
order, that is, lexicographically by the full path's component sequence
with components compared as strings (not by the joined full-path string,
from which this order differs whenever a sibling name extends another
past the separator, as in the counterexample); as a set it is exactly
the suffix-filtered file list. -/
theorem claim_C4 (rootPath : String) (t : FSTree) :
    sortByFullPath rootPath (mdEntryFilter (rootEntries t)) = discoverySpec rootPath t ∧
    List.Sorted (pathLe rootPath) (mdFilesOf rootPath t) ∧
    (mdFilesOf rootPath t).Perm
      (((rootEntries t).filter
          (fun pb => pb.2 && ".md".data.isSuffixOf (nameOf pb.1).data)).map (fun pb => pb.1)) := by
  have hfilter : mdEntryFilter (rootEntries t) =
      ((rootEntries t).filter
        (fun pb => pb.2 && ".md".data.isSuffixOf (nameOf pb.1).data)).map (fun pb => pb.1) := by
    unfold mdEntryFilter
    congr 1
    apply List.filter_congr
    intro pb _
    rw [globMatch_md_eq_isSuffixOf]
  refine ⟨?_, sortByFullPath_sorted rootPath _, ?_⟩
  · unfold discoverySpec
    rw [hfilter]
  · unfold mdFilesOf
    rw [hfilter]
    exact sortByFullPath_perm rootPath _

/-- C5: with a missing root the run aborts right after the existence
check, and with a root containing no matching file it aborts after the
diagnostic listing; in both cases no artifact is written, no composite
document is assembled, and the (total) run function still returns a
result — there is no unhandled crash. -/
theorem claim_C5 (read : List String → Except String String) (convert : String → String)
    (render : String → Except String Unit) (rootPath output_name : String) :
    ((create_pdf_from_repo read convert render none rootPath output_name).pdfWritten = false ∧
     (create_pdf_from_repo read convert render none rootPath output_name).html = none ∧
     Event.dirMissing rootPath ∈
       (create_pdf_from_repo read convert render none rootPath output_name).events) ∧
    ∀ t : FSTree, mdFilesOf rootPath t = [] →
      (create_pdf_from_repo read convert render (some t) rootPath output_name).pdfWritten
          = false ∧
      (create_pdf_from_repo read convert render (some t) rootPath output_name).html = none ∧
      Event.noFilesFound rootPath ∈
        (create_pdf_from_repo read convert render (some t) rootPath output_name).events := by
  refine ⟨⟨rfl, rfl, by simp [create_pdf_from_repo]⟩, ?_⟩
  intro t ht
  rw [create_pdf_some, ht, runSorted_empty]
  exact ⟨rfl, rfl, by simp⟩

/-- Witness for C5: a missing root, and a root containing only a
non-matching file. -/
theorem claim_C5_witness :
    (create_pdf_from_repo (fun _ => Except.ok "x") (fun s => s) (fun _ => Except.ok ())
        none "/r" "out").pdfWritten = false ∧
    (create_pdf_from_repo (fun _ => Except.ok "x") (fun s => s) (fun _ => Except.ok ())
        (some (FSTree.dir "r" [FSTree.file "x.txt"])) "/r" "out").pdfWritten = false ∧
    Event.noFilesFound "/r" ∈
      (create_pdf_from_repo (fun _ => Except.ok "x") (fun s => s) (fun _ => Except.ok ())
        (some (FSTree.dir "r" [FSTree.file "x.txt"])) "/r" "out").events :=
  ⟨(claim_C5 (fun _ => Except.ok "x") (fun s => s) (fun _ => Except.ok ()) "/r" "out").1.1,
   ((claim_C5 (fun _ => Except.ok "x") (fun s => s) (fun _ => Except.ok ()) "/r" "out").2
      (FSTree.dir "r" [FSTree.file "x.txt"]) (by decide)).1,
   ((claim_C5 (fun _ => Except.ok "x") (fun s => s) (fun _ => Except.ok ()) "/r" "out").2
      (FSTree.dir "r" [FSTree.file "x.txt"]) (by decide)).2.2⟩

/-- C10: the assembly phase is deterministic in the discovery enumeration
order: two enumerations that are permutations of each other (with the
distinct full-path keys a real filesystem guarantees) produce identical
composite HTML strings, because sorting by full path canonicalizes the
order and nothing else about the enumeration is consulted. -/
theorem claim_C10 (read : List String → Except String String) (convert : String → String)
    (render : String → Except String Unit) (rootPath output_name : String)
    (allFiles l₁ l₂ : List (List String)) (hperm : l₁.Perm l₂)
    (hkeys : l₁.Pairwise (fun a b => fullPathStr rootPath a ≠ fullPathStr rootPath b)) :
    (create_pdf_core read convert render rootPath output_name l₁ allFiles).html =
      (create_pdf_core read convert render rootPath output_name l₂ allFiles).html := by
  unfold create_pdf_core
  rw [sortByFullPath_eq_of_perm rootPath hperm hkeys]

/-- Witness for C10: the two enumeration orders of `a.md`, `b.md`. -/
theorem claim_C10_witness :
    (create_pdf_core (fun _ => Except.ok "x") (fun s => s) (fun _ => Except.ok ())
        "/r" "out" [["b.md"], ["a.md"]] []).html =
      (create_pdf_core (fun _ => Except.ok "x") (fun s => s) (fun _ => Except.ok ())
        "/r" "out" [["a.md"], ["b.md"]] []).html :=
  claim_C10 (fun _ => Except.ok "x") (fun s => s) (fun _ => Except.ok ()) "/r" "out"
    [] [["b.md"], ["a.md"]] [["a.md"], ["b.md"]]
    (List.Perm.swap ["a.md"] ["b.md"] []) (by decide)

set_option maxRecDepth 8192 in
/-- C1 counterexample: a root with a single empty file.  The file is
skipped (no body section, an empty-file warning), yet the navigation list
still contains its entry, because the TOC line is appended before the
empty-content check: the navigation list has 1 entry while 0 files were
successfully processed, and the composite document consists of the header
and that TOC entry with an empty body. -/
theorem claim_C1_counterexample :
    tocAnchorsOf (mdFilesOf "/r" (FSTree.dir "r" [FSTree.file "b.md"])) = ["section-0-bmd"] ∧
    loopSectionsOf (fun _ => Except.ok "") (fun s => s)
      (mdFilesOf "/r" (FSTree.dir "r" [FSTree.file "b.md"])) = [] ∧
    Event.emptyFile "b.md" ∈
      (create_pdf_from_repo (fun _ => Except.ok "") (fun s => s) (fun _ => Except.ok ())
        (some (FSTree.dir "r" [FSTree.file "b.md"])) "/r" "out").events ∧
    (create_pdf_from_repo (fun _ => Except.ok "") (fun s => s) (fun _ => Except.ok ())
        (some (FSTree.dir "r" [FSTree.file "b.md"])) "/r" "out").html =
      some (htmlHeader "out" "/r" 1 ++ tocLineOf 0 ["b.md"] ++ tocClose
        ++ "</body></html>") := by
  decide

/-- C1 (amended): the navigation list has exactly one entry per
discovered file — the TOC entry is appended before the empty/unreadable
check — so files skipped as empty or unreadable still appear in the
navigation list; the body contains exactly the successfully converted
files, and a skipped file's anchor appears in the navigation list but
never among the body sections. -/
theorem claim_C1 (read : List String → Except String String) (convert : String → String)
    (render : String → Except String Unit) (rootPath output_name : String) (t : FSTree)
    (h : mdFilesOf rootPath t ≠ []) :
    (create_pdf_from_repo read convert render (some t) rootPath output_name).html =
      some (assembledHtml read convert rootPath output_name (mdFilesOf rootPath t)) ∧
    (tocAnchorsOf (mdFilesOf rootPath t)).length = (mdFilesOf rootPath t).length ∧
    ∀ ip ∈ (mdFilesOf rootPath t).enum,
      sectionTripleOf read convert ip = none →
        anchorOf ip.1 (relPathStr ip.2) ∈ tocAnchorsOf (mdFilesOf rootPath t) ∧
        ∀ sec ∈ loopSectionsOf read convert (mdFilesOf rootPath t),
          sec.1 ≠ anchorOf ip.1 (relPathStr ip.2) := by
  refine ⟨run_html_of_ne read convert render rootPath output_name t h,
    by simp [tocAnchorsOf], ?_⟩
  intro ip hip hnone
  constructor
  · exact List.mem_map_of_mem _ hip
  · intro sec hsec heq
    unfold loopSectionsOf at hsec
    obtain ⟨jp, hjp, hsj⟩ := List.mem_filterMap.mp hsec
    rw [sectionTripleOf_fst hsj] at heq
    have hkeys : (((mdFilesOf rootPath t).enum).map Prod.fst).Nodup := by
      rw [List.enum, List.enumFrom_map_fst]
      exact List.nodup_range' 0 _
    have hji : jp = ip :=
      eq_of_fst_eq_of_nodup_keys hkeys hjp hip (anchorOf_inj_index heq)
    rw [hji, hnone] at hsj
    cases hsj

/-- Witness for C1 (amended) at the single-empty-file root. -/
theorem claim_C1_witness :
    (tocAnchorsOf (mdFilesOf "/r" (FSTree.dir "r" [FSTree.file "b.md"]))).length =
      (mdFilesOf "/r" (FSTree.dir "r" [FSTree.file "b.md"])).length ∧
    anchorOf 0 (relPathStr ["b.md"]) ∈
      tocAnchorsOf (mdFilesOf "/r" (FSTree.dir "r" [FSTree.file "b.md"])) :=
  ⟨(claim_C1 (fun _ => Except.ok "") (fun s => s) (fun _ => Except.ok ()) "/r" "out"
      (FSTree.dir "r" [FSTree.file "b.md"]) (by decide)).2.1,
   ((claim_C1 (fun _ => Except.ok "") (fun s => s) (fun _ => Except.ok ()) "/r" "out"
      (FSTree.dir "r" [FSTree.file "b.md"]) (by decide)).2.2 (0, ["b.md"]) (by decide)
      (by decide)).1⟩

/-- C6: per-file failures are local.  For every discovered file: a read
or decode failure logs an error-processing line and contributes no
section; content that is empty after stripping logs an empty-file warning
and contributes no section; any other file contributes exactly its
converted section — independently of the other files — and the run still
assembles a composite document (it never aborts on a per-file failure). -/
theorem claim_C6 (read : List String → Except String String) (convert : String → String)
    (render : String → Except String Unit) (rootPath output_name : String) (t : FSTree)
    (h : mdFilesOf rootPath t ≠ []) :
    (create_pdf_from_repo read convert render (some t) rootPath output_name).html.isSome
        = true ∧
    ∀ ip ∈ (mdFilesOf rootPath t).enum,
      (∀ e, read ip.2 = Except.error e →
        Event.errorProcessing (fullPathStr rootPath ip.2) e ∈
          (create_pdf_from_repo read convert render (some t) rootPath output_name).events ∧
        sectionTripleOf read convert ip = none) ∧
      (∀ content, read ip.2 = Except.ok content →
        ((pyStrip content.data).isEmpty = true →
          Event.emptyFile (relPathStr ip.2) ∈
            (create_pdf_from_repo read convert render (some t) rootPath output_name).events ∧
          sectionTripleOf read convert ip = none) ∧
        ((pyStrip content.data).isEmpty = false →
          sectionTripleOf read convert ip =
            some (anchorOf ip.1 (relPathStr ip.2), relPathStr ip.2, convert content))) := by
  have hh := run_html_of_ne read convert render rootPath output_name t h
  obtain ⟨tail, hev⟩ := run_events_of_ne read convert render rootPath output_name t h
  have hmemEv : ∀ ip ∈ (mdFilesOf rootPath t).enum, ∀ ev ∈ stepEventsOf read rootPath ip,
      ev ∈ (create_pdf_from_repo read convert render (some t) rootPath output_name).events := by
    intro ip hip ev hevm
    rw [hev]
    have hm : ev ∈ loopEventsOf read rootPath (mdFilesOf rootPath t) :=
      List.mem_flatMap.mpr ⟨ip, hip, hevm⟩
    simp [hm]
  refine ⟨by rw [hh]; rfl, ?_⟩
  intro ip hip
  refine ⟨?_, ?_⟩
  · intro e hre
    exact ⟨hmemEv ip hip _ (by simp [stepEventsOf, hre]),
      by simp [sectionTripleOf, hre]⟩
  · intro content hrc
    refine ⟨fun hemp => ⟨hmemEv ip hip _ (by simp [stepEventsOf, hrc, hemp]),
      by simp [sectionTripleOf, hrc, hemp]⟩, fun hne => ?_⟩
    simp [sectionTripleOf, hrc, hne]

/-- Witness for C6: a root with a good file, an empty file and an
unreadable file — the two bad files are skipped with their log lines
while the good file still contributes its section. -/
theorem claim_C6_witness :
    (Event.emptyFile "b.md" ∈
      (create_pdf_from_repo
        (fun p => if p = ["b.md"] then Except.ok ""
          else if p = ["c.md"] then Except.error "io" else Except.ok "# T")
        (fun s => s) (fun _ => Except.ok ())
        (some (FSTree.dir "r" [FSTree.file "a.md", FSTree.file "b.md", FSTree.file "c.md"]))
        "/r" "out").events) ∧
    (Event.errorProcessing "/r/c.md" "io" ∈
      (create_pdf_from_repo
        (fun p => if p = ["b.md"] then Except.ok ""
          else if p = ["c.md"] then Except.error "io" else Except.ok "# T")
        (fun s => s) (fun _ => Except.ok ())
        (some (FSTree.dir "r" [FSTree.file "a.md", FSTree.file "b.md", FSTree.file "c.md"]))
        "/r" "out").events) ∧
    sectionTripleOf
      (fun p => if p = ["b.md"] then Except.ok ""
        else if p = ["c.md"] then Except.error "io" else Except.ok "# T")
      (fun s => s) (0, ["a.md"]) =
      some (anchorOf 0 (relPathStr ["a.md"]), relPathStr ["a.md"], "# T") :=
  ⟨(((claim_C6
      (fun p => if p = ["b.md"] then Except.ok ""
        else if p = ["c.md"] then Except.error "io" else Except.ok "# T")
      (fun s => s) (fun _ => Except.ok ()) "/r" "out"
      (FSTree.dir "r" [FSTree.file "a.md", FSTree.file "b.md", FSTree.file "c.md"])
      (by decide)).2 (1, ["b.md"]) (by decide)).2 "" rfl).1 (by decide) |>.1,
   ((claim_C6
      (fun p => if p = ["b.md"] then Except.ok ""
        else if p = ["c.md"] then Except.error "io" else Except.ok "# T")
      (fun s => s) (fun _ => Except.ok ()) "/r" "out"
      (FSTree.dir "r" [FSTree.file "a.md", FSTree.file "b.md", FSTree.file "c.md"])
      (by decide)).2 (2, ["c.md"]) (by decide)).1 "io" rfl |>.1,
   (((claim_C6
      (fun p => if p = ["b.md"] then Except.ok ""
        else if p = ["c.md"] then Except.error "io" else Except.ok "# T")
      (fun s => s) (fun _ => Except.ok ()) "/r" "out"
      (FSTree.dir "r" [FSTree.file "a.md", FSTree.file "b.md", FSTree.file "c.md"])
      (by decide)).2 (0, ["a.md"]) (by decide)).2 "# T" rfl).2 (by decide)⟩

/-- C7: a rendering-engine failure is caught: the run logs the
PDF-generation start line and the error line, reports no artifact, and
the (total) run function still returns its result — the exception does
not propagate. -/
theorem claim_C7 (read : List String → Except String String) (convert : String → String)
    (render : String → Except String Unit) (rootPath output_name : String) (t : FSTree)
    (h : mdFilesOf rootPath t ≠ []) (e : String)
    (hr : render (assembledHtml read convert rootPath output_name (mdFilesOf rootPath t)) =
      Except.error e) :
    (create_pdf_from_repo read convert render (some t) rootPath output_name).pdfWritten
        = false ∧
    Event.generatingPdf output_name ∈
      (create_pdf_from_repo read convert render (some t) rootPath output_name).events ∧
    Event.errorGenerating e ∈
      (create_pdf_from_repo read convert render (some t) rootPath output_name).events := by
  rw [create_pdf_some, runSorted_eq read convert render rootPath output_name _ _ h, hr]
  exact ⟨rfl, by simp, by simp⟩

/-- Witness for C7: a renderer that always raises. -/
theorem claim_C7_witness :
    (create_pdf_from_repo (fun _ => Except.ok "x") (fun s => s)
        (fun _ => Except.error "boom") (some (FSTree.dir "r" [FSTree.file "a.md"]))
        "/r" "out").pdfWritten = false ∧
    Event.errorGenerating "boom" ∈
      (create_pdf_from_repo (fun _ => Except.ok "x") (fun s => s)
        (fun _ => Except.error "boom") (some (FSTree.dir "r" [FSTree.file "a.md"]))
        "/r" "out").events :=
  ⟨(claim_C7 (fun _ => Except.ok "x") (fun s => s) (fun _ => Except.error "boom") "/r" "out"
      (FSTree.dir "r" [FSTree.file "a.md"]) (by decide) "boom" rfl).1,
   (claim_C7 (fun _ => Except.ok "x") (fun s => s) (fun _ => Except.error "boom") "/r" "out"
      (FSTree.dir "r" [FSTree.file "a.md"]) (by decide) "boom" rfl).2.2⟩

/-- C8: the composite document is the header, then the whole navigation
list, then the body sections, then the footer; the body section anchors
are exactly those of the successfully converted files in discovery
(sorted-path) order, they form a sublist of the navigation list's anchor
sequence (so the body order matches the navigation order), and both anchor
sequences are duplicate-free (each converted file appears exactly once in
each). -/
theorem claim_C8 (read : List String → Except String String) (convert : String → String)
    (render : String → Except String Unit) (rootPath output_name : String) (t : FSTree)
    (h : mdFilesOf rootPath t ≠ []) :
    (create_pdf_from_repo read convert render (some t) rootPath output_name).html =
      some (htmlHeader output_name rootPath (mdFilesOf rootPath t).length
        ++ tocHtmlOf (mdFilesOf rootPath t) ++ tocClose
        ++ bodyHtmlOf (loopSectionsOf read convert (mdFilesOf rootPath t))
        ++ "</body></html>") ∧
    (loopSectionsOf read convert (mdFilesOf rootPath t)).map (fun sec => sec.1) =
      ((mdFilesOf rootPath t).enum.filter
          (fun ip => (sectionTripleOf read convert ip).isSome)).map
        (fun ip => anchorOf ip.1 (relPathStr ip.2)) ∧
    List.Sublist
      ((loopSectionsOf read convert (mdFilesOf rootPath t)).map (fun sec => sec.1))
      (tocAnchorsOf (mdFilesOf rootPath t)) ∧
    (tocAnchorsOf (mdFilesOf rootPath t)).Nodup ∧
    ((loopSectionsOf read convert (mdFilesOf rootPath t)).map (fun sec => sec.1)).Nodup := by
  have h1 := run_html_of_ne read convert render rootPath output_name t h
  have h2 := sectionAnchors_eq read convert (mdFilesOf rootPath t).enum
  have hsub : List.Sublist
      ((loopSectionsOf read convert (mdFilesOf rootPath t)).map (fun sec => sec.1))
      (tocAnchorsOf (mdFilesOf rootPath t)) := by
    unfold loopSectionsOf
    rw [h2]
    exact (List.filter_sublist _).map _
  exact ⟨h1, h2, hsub, tocAnchorsOf_nodup _,
    List.Nodup.sublist hsub (tocAnchorsOf_nodup _)⟩

/-- Witness for C8 at a two-file root (one converted, one empty). -/
theorem claim_C8_witness :
    (List.map (fun sec => sec.1)
      (loopSectionsOf (fun p => if p = ["b.md"] then Except.ok "" else Except.ok "hi")
        (fun s => s)
        (mdFilesOf "/r" (FSTree.dir "r" [FSTree.file "a.md", FSTree.file "b.md"])))).Nodup ∧
    (tocAnchorsOf (mdFilesOf "/r"
      (FSTree.dir "r" [FSTree.file "a.md", FSTree.file "b.md"]))).Nodup :=
  ⟨(claim_C8 (fun p => if p = ["b.md"] then Except.ok "" else Except.ok "hi") (fun s => s)
      (fun _ => Except.ok ()) "/r" "out"
      (FSTree.dir "r" [FSTree.file "a.md", FSTree.file "b.md"]) (by decide)).2.2.2.2,
   (claim_C8 (fun p => if p = ["b.md"] then Except.ok "" else Except.ok "hi") (fun s => s)
      (fun _ => Except.ok ()) "/r" "out"
      (FSTree.dir "r" [FSTree.file "a.md", FSTree.file "b.md"]) (by decide)).2.2.2.1⟩

/-- C9: the `Total files` count embedded in the document header and the
`Found N markdown files` console count both equal the number of
discovered matching files — the length of the sorted discovery result,
which equals the number of files that matched the filter, including files
later skipped as empty or unreadable — not the number of successfully
processed files. -/
theorem claim_C9 (read : List String → Except String String) (convert : String → String)
    (render : String → Except String Unit) (rootPath output_name : String) (t : FSTree)
    (h : mdFilesOf rootPath t ≠ []) :
    Event.foundCount (mdFilesOf rootPath t).length ∈
      (create_pdf_from_repo read convert render (some t) rootPath output_name).events ∧
    (create_pdf_from_repo read convert render (some t) rootPath output_name).html =
      some (htmlHeader output_name rootPath (mdFilesOf rootPath t).length
        ++ tocHtmlOf (mdFilesOf rootPath t) ++ tocClose
        ++ bodyHtmlOf (loopSectionsOf read convert (mdFilesOf rootPath t))
        ++ "</body></html>") ∧
    (mdFilesOf rootPath t).length = (mdEntryFilter (rootEntries t)).length := by
  obtain ⟨tail, hev⟩ := run_events_of_ne read convert render rootPath output_name t h
  refine ⟨?_, run_html_of_ne read convert render rootPath output_name t h, ?_⟩
  · rw [hev]
    simp [evPrefixOf]
  · exact (sortByFullPath_perm rootPath _).length_eq

/-- Witness for C9: a root whose single file is empty — the header count
and the console count are 1 although 0 files were processed. -/
theorem claim_C9_witness :
    Event.foundCount (mdFilesOf "/r" (FSTree.dir "r" [FSTree.file "b.md"])).length ∈
      (create_pdf_from_repo (fun _ => Except.ok "") (fun s => s) (fun _ => Except.ok ())
        (some (FSTree.dir "r" [FSTree.file "b.md"])) "/r" "out").events ∧
    (mdFilesOf "/r" (FSTree.dir "r" [FSTree.file "b.md"])).length = 1 ∧
    loopSectionsOf (fun _ => Except.ok "") (fun s => s)
      (mdFilesOf "/r" (FSTree.dir "r" [FSTree.file "b.md"])) = [] :=
  ⟨(claim_C9 (fun _ => Except.ok "") (fun s => s) (fun _ => Except.ok ()) "/r" "out"
      (FSTree.dir "r" [FSTree.file "b.md"]) (by decide)).1,
   by decide, by decide⟩

end PdfDocs
